import Mathlib

/-!
Verification of the chunked-upload Cloudflare worker (src/uploader.ts,
src/progress-reporter.ts, src/types.ts, and the worker entry point).

The worker's logic is embedded shallowly: every external interaction
(HTTP fetch, the chunk-send endpoint, the status endpoint, the random
jitter draw) is a parameter of the model, supplied as a function from
call identity to outcome, and each TypeScript function becomes a pure
Lean function from that environment to its result together with the
trace of observable effects (progress events emitted, chunks sent,
status checks started).

Numbers: JavaScript numbers are modelled as exact integers (Int / Nat).
Date.now() is modelled as a millisecond counter that advances exactly by
each awaited delay.  Math.round(a/b) for b > 0 is modelled exactly by
the integer expression (2a+b)/(2b) with Euclidean division (the lemma
jsRoundRatio_eq_round below certifies it equals the rational rounding).
The exponential-backoff base min(1000 * 1.5^(n-1), 5000) is modelled as
min(1000 * 3^(n-1) / 2^(n-1), 5000) in Nat: for n ≤ 4 the quotient is
exact (1000, 1500, 2250, 3375) and for n ≥ 5 the uncapped value already
exceeds the 5000 cap, so the Nat floor agrees with the float value.

While-loops are given as structural recursion on an explicit fuel
argument so that the kernel can evaluate them on concrete inputs; the
fuel supplied at each top-level entry point provably dominates the
number of iterations the source loop can perform, and every out-of-fuel
branch returns exactly the value of the corresponding loop-exit path.
-/

namespace CFWorker

/-- Progress status values (src/types.ts, UploadProgress.status). -/
inductive UploadStatus
  | uploading
  | finalizing
  | completed
  | failed
  deriving DecidableEq

/-- One progress payload, as handed to ProgressReporter.reportProgress.
The uploadId / videoId / timestamp fields added inside reportProgress are
correlation metadata with no control-flow influence and are omitted. -/
structure ProgressEvent where
  bytesUploaded : Int
  totalBytes : Int
  percentage : Int
  status : UploadStatus
  message : Option String
  deriving DecidableEq

/-- Math.round (a / b) for integers with b > 0, computed exactly:
round(a/b) = ⌊a/b + 1/2⌋ = ⌊(2a+b)/(2b)⌋, and Int division is Euclidean
division, which is floor division for a positive divisor. -/
def jsRoundRatio (a b : Int) : Int := (2 * a + b) / (2 * b)

/-- FileUploader.CHUNK_SIZE (uploader.ts:5): 8 MiB. -/
def CHUNK_SIZE : Int := 8 * 1024 * 1024

/-- FileUploader.MAX_RETRIES (uploader.ts:6). -/
def MAX_RETRIES : Nat := 3

/-- FileUploader.RETRY_DELAY in ms (uploader.ts:7). -/
def RETRY_DELAY : Nat := 2000

/-- The deadline of waitForFileActive, scaled: the source compares
Date.now() - startTime < timeoutSeconds * 1000 where
timeoutSeconds = min(60 + (bytes/2^20) * 0.5, 300) (uploader.ts:266-283).
Multiplying both sides of the comparison by 2^21 clears the denominator
exactly: timeoutSeconds * 1000 * 2^21 = min(60000*2^21 + bytes*1000, 300000*2^21). -/
def deadlineScaled (bytes : Int) : Int :=
  min (60000 * 2 ^ 21 + bytes * 1000) (300000 * 2 ^ 21)

/-- The activation-polling timeout in seconds as the source computes it
(uploader.ts:266-274): min(baseTimeoutSeconds + fileSizeMB * additionalTimePerMB,
maxTimeoutSeconds) with base 60, 0.5 s per MiB, cap 300. -/
def timeoutSeconds (bytes : Int) : ℚ :=
  min (60 + ((bytes : ℚ) / (1024 * 1024)) * (1 / 2)) 300

/-- Rounded timeout seconds, as printed in the timeout error message. -/
def timeoutRounded (bytes : Int) : Int :=
  jsRoundRatio (deadlineScaled bytes) (1000 * 2 ^ 21)

/-- Errors thrown by the worker, one constructor per throw site.
activationTimeout stores the raw inputs of its message (file size in
bytes, attempt count, elapsed ms); rendering happens in `message`. -/
inductive UploadError
  | jsError (msg : String)
  | metadataFailed (statusText : String)
  | unknownSize
  | sessionRejected (statusText errorText : String)
  | missingUploadUrl
  | chunkFetchFailed (offset : Int) (statusText : String)
  | chunkUploadFailed (err : String)
  | noFileUri
  | processingFailed (err : String)
  | activationTimeout (bytes : Int) (attempts : Nat) (elapsedMs : Nat)
  deriving DecidableEq

/-- The `.message` of each thrown Error, following the source's template
strings (uploader.ts lines 26, 31, 114, 119, 148, 164, 184, 306, 325). -/
def UploadError.message : UploadError → String
  | .jsError m => m
  | .metadataFailed st => "Failed to get file metadata: " ++ st
  | .unknownSize => "Unable to determine file size"
  | .sessionRejected st body => "Failed to start upload session: " ++ st ++ " - " ++ body
  | .missingUploadUrl => "Missing upload URL from Google Files API"
  | .chunkFetchFailed off st => "Failed to fetch chunk at " ++ toString off ++ ": " ++ st
  | .chunkUploadFailed e => "Chunk upload failed: " ++ e
  | .noFileUri => "Streaming upload completed but no file URI received"
  | .processingFailed e => "File processing failed in Google Files API: " ++ e
  | .activationTimeout bytes attempts elapsedMs =>
      "File did not become ACTIVE within " ++ toString (timeoutRounded bytes) ++
      "s timeout (" ++ toString (jsRoundRatio (elapsedMs : Int) 1000) ++ "s elapsed, " ++
      toString attempts ++ " attempts). Large files (" ++
      toString (jsRoundRatio bytes (1024 * 1024)) ++ "MB) may need more processing time."

/-- ChunkUploadResult (src/types.ts) extended with the optional fileUri,
as in uploadChunk's return type (uploader.ts:194). -/
structure ChunkResult where
  success : Bool
  bytesUploaded : Int
  error : Option String := none
  fileUri : Option String := none
  deriving DecidableEq

/-- Outcome of one chunk-transmission attempt (the fetch at
uploader.ts:209 plus the ok-check at 215): `.error e` covers both a
rejected fetch and a non-ok response (whose thrown "HTTP status: body"
message is e); `.ok uriOpt` is a success response, with uriOpt the
file.uri parsed from its JSON body, or none if the body had no file.uri
or parsing threw (the inner try at uploader.ts:227-234). -/
abbrev AttemptOutcome := Except String (Option String)

/-- The retry loop of uploadChunk (uploader.ts:195-259).  `attempt` is
the current 0-based attempt index; `fuel` is MAX_RETRIES - attempt, so
running out of fuel is exactly the loop guard attempt < MAX_RETRIES
failing, whose fallthrough (uploader.ts:255-259) returns the
"Max retries exceeded" result (dead code in practice).  Returns the
result, the number of attempts performed, and the list of awaited
inter-attempt delays in ms. -/
def uploadChunkGo (outcome : Nat → AttemptOutcome) (chunkLen : Int) (isLastChunk : Bool) :
    Nat → Nat → ChunkResult × Nat × List Nat
  | attempt, 0 =>
      ({ success := false, bytesUploaded := 0, error := some "Max retries exceeded" },
        attempt, [])
  | attempt, fuel + 1 =>
      match outcome attempt with
      | .ok uriOpt =>
          ({ success := true, bytesUploaded := chunkLen,
             fileUri := if isLastChunk then uriOpt else none }, attempt + 1, [])
      | .error e =>
          if attempt = MAX_RETRIES - 1 then
            ({ success := false, bytesUploaded := 0, error := some e }, attempt + 1, [])
          else
            let rest := uploadChunkGo outcome chunkLen isLastChunk (attempt + 1) fuel
            (rest.1, rest.2.1, RETRY_DELAY :: rest.2.2)

/-- uploadChunk (uploader.ts:187-260), entered at attempt 0. -/
def uploadChunk (outcome : Nat → AttemptOutcome) (chunkLen : Int) (isLastChunk : Bool) :
    ChunkResult × Nat × List Nat :=
  uploadChunkGo outcome chunkLen isLastChunk 0 MAX_RETRIES

/-- One byte range of the chunk loop (offset, length, last-chunk flag). -/
structure ChunkRange where
  offset : Int
  len : Int
  isFinal : Bool
  deriving DecidableEq

/-- The byte ranges requested by the chunk loop of streamUploadInChunks
(uploader.ts:134-152): while bytesUploaded < totalSize, take
chunkSize = min(CHUNK_SIZE, totalSize - bytesUploaded), mark the chunk
final when bytesUploaded + chunkSize >= totalSize, and advance. -/
def chunkRangesGo (C total : Int) : Nat → Int → List ChunkRange
  | 0, _ => []
  | fuel + 1, uploaded =>
      if uploaded < total then
        let csize := min C (total - uploaded)
        ⟨uploaded, csize, decide (total ≤ uploaded + csize)⟩ ::
          chunkRangesGo C total fuel (uploaded + csize)
      else []

/-- Fuel dominating the iteration count of the chunk loop: each
iteration except possibly the last advances by exactly C bytes. -/
def chunkFuel (C total : Int) : Nat := total.toNat / C.toNat + 1

/-- The full chunk-range sequence for a transfer of `total` bytes. -/
def chunkRanges (C total : Int) : List ChunkRange :=
  chunkRangesGo C total (chunkFuel C total) 0

/-- Outcome of one source-range fetch (uploader.ts:141-149): the fetch
promise rejects, or resolves non-ok (statusText), or resolves ok.  An ok
response is assumed to carry exactly the requested byte range, per HTTP
Range semantics. -/
inductive FetchOutcome
  | reject (msg : String)
  | notOk (statusText : String)
  | ok
  deriving DecidableEq

/-- Environment of streamUploadInChunks: the source's response to the
range fetch starting at a given offset, and the upload endpoint's
response to the (0-based) n-th transmission attempt of the chunk at a
given offset. -/
structure StreamEnv where
  fetchChunk : Int → FetchOutcome
  send : Int → Nat → AttemptOutcome

instance {ε α : Type} [DecidableEq ε] [DecidableEq α] : DecidableEq (Except ε α) :=
  fun x y =>
    match x, y with
    | .ok a, .ok b =>
        if h : a = b then isTrue (by rw [h]) else isFalse (by intro hh; cases hh; exact h rfl)
    | .ok _, .error _ => isFalse (by intro h; cases h)
    | .error _, .ok _ => isFalse (by intro h; cases h)
    | .error a, .error b =>
        if h : a = b then isTrue (by rw [h]) else isFalse (by intro hh; cases hh; exact h rfl)

/-- A chunk transmission performed by the loop: the range sent and the
ChunkResult uploadChunk returned for it. -/
structure SentChunk where
  range : ChunkRange
  result : ChunkResult
  deriving DecidableEq

/-- Result of streamUploadInChunks: the returned fileUri or the thrown
error, the progress events emitted, and the chunks sent, in order. -/
structure StreamOut where
  result : Except UploadError String
  events : List ProgressEvent
  sent : List SentChunk
  deriving DecidableEq

/-- The chunk loop of streamUploadInChunks (uploader.ts:132-185).
Progress delivery never throws (see reportProgress below), so emission
is modelled as appending the event.  The out-of-fuel branch returns the
loop-exit value (the "no file URI received" throw at uploader.ts:184),
which is also what the guard-false branch returns, so fuel exhaustion is
indistinguishable from normal loop exit. -/
def streamGo (env : StreamEnv) (total : Int) : Nat → Int → StreamOut
  | 0, _ => { result := .error .noFileUri, events := [], sent := [] }
  | fuel + 1, uploaded =>
      if uploaded < total then
        let csize := min CHUNK_SIZE (total - uploaded)
        let isLast := decide (total ≤ uploaded + csize)
        match env.fetchChunk uploaded with
        | .reject m => { result := .error (.jsError m), events := [], sent := [] }
        | .notOk st =>
            { result := .error (.chunkFetchFailed uploaded st), events := [], sent := [] }
        | .ok =>
            let r := (uploadChunk (env.send uploaded) csize isLast).1
            let sc : SentChunk := { range := ⟨uploaded, csize, isLast⟩, result := r }
            if r.success = false then
              { result := .error (.chunkUploadFailed (r.error.getD "undefined")),
                events := [], sent := [sc] }
            else
              let uploaded' := uploaded + r.bytesUploaded
              let ev : ProgressEvent :=
                { bytesUploaded := uploaded', totalBytes := total,
                  percentage := jsRoundRatio (100 * uploaded') total,
                  status := if isLast then .finalizing else .uploading,
                  message := some (if isLast then "Finalizing streaming upload"
                    else "Streamed " ++ toString (jsRoundRatio uploaded' (1024 * 1024)) ++ "MB") }
              if isLast && r.fileUri.isSome then
                { result := .ok (r.fileUri.getD ""), events := [ev], sent := [sc] }
              else
                let rest := streamGo env total fuel (uploaded + r.bytesUploaded)
                { result := rest.result, events := ev :: rest.events, sent := sc :: rest.sent }
      else { result := .error .noFileUri, events := [], sent := [] }

/-- streamUploadInChunks (uploader.ts:125-185), entered at offset 0. -/
def streamUploadInChunks (env : StreamEnv) (total : Int) : StreamOut :=
  streamGo env total (chunkFuel CHUNK_SIZE total) 0

/-- Outcome of one status-endpoint fetch (uploader.ts:288-292): the
fetch rejects, or resolves non-ok, or resolves ok with a JSON body whose
state and error fields are given. -/
inductive PollOutcome
  | reject (msg : String)
  | notOk (statusText : String)
  | okState (state : String) (errField : Option String)
  deriving DecidableEq

/-- Environment of waitForFileActive: the status endpoint's response on
the (1-based) n-th check, and the jitter Math.random()*1000 observed
before the n-th delay, in whole ms.  The model leaves the jitter
unbounded; none of the verified properties need the < 1000 bound. -/
structure PollEnv where
  statusCheck : Nat → PollOutcome
  jitter : Nat → Nat

/-- JavaScript `x || dflt` for the string field statusData.error
(uploader.ts:306): undefined and the empty string are falsy. -/
def jsOr (o : Option String) (dflt : String) : String :=
  match o with
  | some s => if s = "" then dflt else s
  | none => dflt

/-- The try-block body of one polling iteration (uploader.ts:286-308):
a rejected fetch throws; a non-ok response logs and falls through; an ok
response returns the fileUri on state ACTIVE, throws processingFailed on
state FAILED (the throw at uploader.ts:306), and falls through
otherwise.  `.ok (some uri)` = return, `.ok none` = fall through to the
delay, `.error` = a throw. -/
def pollTry (fileUri : String) (o : PollOutcome) : Except UploadError (Option String) :=
  match o with
  | .reject m => .error (.jsError m)
  | .notOk _st => .ok none
  | .okState s errField =>
      if s = "ACTIVE" then .ok (some fileUri)
      else if s = "FAILED" then .error (.processingFailed (jsOr errField "Unknown error"))
      else .ok none

/-- Exponential backoff base delay in ms (uploader.ts:315):
min(1000 * 1.5^(attempt-1), 5000), exact in Nat (see file header). -/
def baseDelay (attempt : Nat) : Nat :=
  min (1000 * 3 ^ (attempt - 1) / 2 ^ (attempt - 1)) 5000

/-- One status check started by the polling loop: its 1-based attempt
index and the elapsed ms at which it started. -/
structure PollCheck where
  attempt : Nat
  elapsedMs : Nat
  deriving DecidableEq

/-- The polling loop of waitForFileActive (uploader.ts:283-328).
The guard is the source's Date.now() - startTime < timeoutSeconds * 1000
scaled by 2^21 (see deadlineScaled; guard_iff_deadline below certifies
the equivalence).  Any error thrown inside the try body - including the
processingFailed throw for state FAILED - is caught by the catch at
uploader.ts:310, which only logs, so the loop continues to the delay.
Each iteration advances elapsed by at least baseDelay ≥ 1000 ms and the
deadline is at most 300000 ms, so at most 301 iterations can pass the
guard; the out-of-fuel branch returns the loop-exit value (the timeout
throw at uploader.ts:328). -/
def waitGo (env : PollEnv) (bytes : Int) (fileUri : String) :
    Nat → Nat → Nat → Except UploadError String × List PollCheck
  | 0, attempt, elapsed => (.error (.activationTimeout bytes attempt elapsed), [])
  | fuel + 1, attempt, elapsed =>
      if (elapsed : Int) * 2 ^ 21 < deadlineScaled bytes then
        let a := attempt + 1
        match pollTry fileUri (env.statusCheck a) with
        | .ok (some uri) => (.ok uri, [⟨a, elapsed⟩])
        | .ok none =>
            let rest := waitGo env bytes fileUri fuel a (elapsed + (baseDelay a + env.jitter a))
            (rest.1, ⟨a, elapsed⟩ :: rest.2)
        | .error _e =>
            let rest := waitGo env bytes fileUri fuel a (elapsed + (baseDelay a + env.jitter a))
            (rest.1, ⟨a, elapsed⟩ :: rest.2)
      else (.error (.activationTimeout bytes attempt elapsed), [])

/-- waitForFileActive (uploader.ts:262-329), entered with attempt 0 and
elapsed 0, with fuel 301 dominating the possible iteration count. -/
def waitForFileActive (env : PollEnv) (fileUri : String) (bytes : Int) :
    Except UploadError String × List PollCheck :=
  waitGo env bytes fileUri 301 0 0

/-- Environment of uploadFile.  headFetch: the HEAD metadata probe
(uploader.ts:24); `.error` = the fetch rejects, `.ok (ok, statusText,
contentLength)` = a response, with contentLength the parseInt of its
content-length header (an absent header behaves as 0 below, matching
parseInt(h || '0'); a non-numeric header, which parseInt maps to NaN, is
outside the model).  sessionFetch: the session-open POST
(uploader.ts:95); `.ok (ok, statusText, bodyText, uploadUrl)` with
uploadUrl the X-Goog-Upload-URL header. -/
structure OrchEnv where
  headFetch : Except String (Bool × String × Option Int)
  sessionFetch : Except String (Bool × String × String × Option String)
  stream : StreamEnv
  poll : PollEnv

/-- startUploadSession (uploader.ts:88-123). -/
def startUploadSession (env : OrchEnv) : Except UploadError String :=
  match env.sessionFetch with
  | .error m => .error (.jsError m)
  | .ok (ok, statusText, body, urlHdr) =>
      if ok = false then .error (.sessionRejected statusText body)
      else
        match urlHdr with
        | none => .error .missingUploadUrl
        | some url => .ok url

/-- The observable trace of one uploadFile call. -/
structure RunTrace where
  events : List ProgressEvent
  sessionConsulted : Bool
  sent : List SentChunk
  pollChecks : List PollCheck
  deriving DecidableEq

/-- The success payload of uploadFile (uploader.ts:69-74).  uploadId
(a fresh UUID) and expiresAt (now + 48 h) carry no logic and are
omitted. -/
structure UploadOutcome where
  fileUri : String
  totalSize : Int
  deriving DecidableEq

/-- The failure-path progress event (uploader.ts:77-83). -/
def failedEvent (e : UploadError) : ProgressEvent :=
  { bytesUploaded := 0, totalBytes := 0, percentage := 0, status := .failed,
    message := some e.message }

/-- The initial progress event (uploader.ts:37-43). -/
def startingEvent (total : Int) : ProgressEvent :=
  { bytesUploaded := 0, totalBytes := total, percentage := 0, status := .uploading,
    message := some "Starting streaming upload to Google Files API" }

/-- The completion progress event (uploader.ts:61-67). -/
def completedEvent (total : Int) : ProgressEvent :=
  { bytesUploaded := total, totalBytes := total, percentage := 100, status := .completed,
    message := some "Streaming upload completed successfully" }

/-- The catch block of uploadFile (uploader.ts:76-85): emit one failed
event carrying the error's message, then rethrow. -/
def failWith (e : UploadError) (evs : List ProgressEvent) (sess : Bool)
    (sent : List SentChunk) (checks : List PollCheck) :
    Except UploadError UploadOutcome × RunTrace :=
  (.error e,
    { events := evs ++ [failedEvent e], sessionConsulted := sess,
      sent := sent, pollChecks := checks })

/-- uploadFile (uploader.ts:15-86): HEAD probe, size check, initial
progress, session open, chunk loop, activation poll, completion
progress; any thrown error lands in the catch modelled by failWith. -/
def uploadFile (env : OrchEnv) : Except UploadError UploadOutcome × RunTrace :=
  match env.headFetch with
  | .error m => failWith (.jsError m) [] false [] []
  | .ok (hok, statusText, contentLength) =>
      if hok = false then failWith (.metadataFailed statusText) [] false [] []
      else
        let totalSize : Int := contentLength.getD 0
        if totalSize = 0 then failWith .unknownSize [] false [] []
        else
          let ev0 := startingEvent totalSize
          match startUploadSession env with
          | .error e => failWith e [ev0] true [] []
          | .ok _uploadUrl =>
              let s := streamUploadInChunks env.stream totalSize
              match s.result with
              | .error e => failWith e (ev0 :: s.events) true s.sent []
              | .ok fileUri =>
                  let p := waitForFileActive env.poll fileUri totalSize
                  match p.1 with
                  | .error e => failWith e (ev0 :: s.events) true s.sent p.2
                  | .ok activeUri =>
                      (.ok { fileUri := activeUri, totalSize := totalSize },
                        { events := ev0 :: s.events ++ [completedEvent totalSize],
                          sessionConsulted := true, sent := s.sent, pollChecks := p.2 })

/-- The worker's JSON reply shape (src/types.ts UploadResponse, success
and error fields). -/
structure WorkerResponse where
  success : Bool
  error : Option String
  deriving DecidableEq

/-- The result-to-response mapping of the worker's fetch handler
(part_002 lines 43-81): a resolved uploadFile yields success true, a
thrown error yields success false with the error's message. -/
def workerFetch (r : Except UploadError UploadOutcome) : WorkerResponse :=
  match r with
  | .ok _ => { success := true, error := none }
  | .error e => { success := false, error := some e.message }

/-- Outcome of the progress-sink POST inside reportProgress
(progress-reporter.ts:30-37): the fetch rejects, or resolves with the
given ok flag and status line. -/
inductive ReportOutcome
  | reject (msg : String)
  | response (ok : Bool) (statusLine : String)
  deriving DecidableEq

/-- The try-block body of reportProgress (progress-reporter.ts:14-49):
a rejected fetch throws; otherwise the delivery outcome is logged
(console lines abbreviated to their identifying prefixes). -/
def reportAttempt (o : ReportOutcome) (p : ProgressEvent) : Except String (List String) :=
  match o with
  | .reject m => .error m
  | .response ok statusLine =>
      if ok = false then
        .ok (("Failed to report progress: " ++ statusLine) ::
          (if p.status = .failed then
            ["CRITICAL: Failed to report upload failure to Supabase"] else []))
      else .ok ["Progress reported successfully to Supabase"]

/-- reportProgress (progress-reporter.ts:10-61): the whole body sits in
a try whose catch only logs (progress-reporter.ts:51-59), so the
function always resolves; the result is the log lines produced. -/
def reportProgress (o : ReportOutcome) (p : ProgressEvent) : Except String (List String) :=
  match reportAttempt o p with
  | .ok logs => .ok logs
  | .error m =>
      .ok (("Progress reporting failed: " ++ m) ::
        (if p.status = .failed then
          ["CRITICAL: Could not notify Supabase of upload failure"] else []))

/-! Helper lemmas about the retry loop. -/

/-- Unfolding uploadChunk to its three-attempt loop. -/
lemma uploadChunk_eq (o : Nat → AttemptOutcome) (l : Int) (last : Bool) :
    uploadChunk o l last = uploadChunkGo o l last 0 (0 + 1 + 1 + 1) := rfl

/-- A successful chunk result reports exactly the chunk's length as
uploaded; a failed one reports 0 (uploader.ts:220-223, 243-247). -/
lemma uploadChunk_bytes (o : Nat → AttemptOutcome) (l : Int) (last : Bool) :
    ((uploadChunk o l last).1.success = true → (uploadChunk o l last).1.bytesUploaded = l) ∧
    ((uploadChunk o l last).1.success = false → (uploadChunk o l last).1.bytesUploaded = 0) := by
  rw [uploadChunk_eq]
  cases h0 : o 0 <;> cases h1 : o 1 <;> cases h2 : o 2 <;>
    simp [uploadChunkGo, h0, h1, h2, MAX_RETRIES]

/-- C5: the chunk transmitter performs at most 3 attempts; the awaited
delays are exactly one fixed RETRY_DELAY between consecutive attempts; a
success on attempt k means attempts 0..k-1 failed and no further attempt
happened; total failure means all 3 attempts failed, carrying the last
attempt's error. -/
theorem chunk_retry_contract (outcome : Nat → AttemptOutcome) (len : Int) (last : Bool) :
    (uploadChunk outcome len last).2.1 ≤ 3 ∧
    (uploadChunk outcome len last).2.2 =
      List.replicate ((uploadChunk outcome len last).2.1 - 1) RETRY_DELAY ∧
    ((uploadChunk outcome len last).1.success = true →
      (∃ u, outcome ((uploadChunk outcome len last).2.1 - 1) = .ok u) ∧
      (∀ i < (uploadChunk outcome len last).2.1 - 1, ∃ e, outcome i = .error e) ∧
      (uploadChunk outcome len last).1.bytesUploaded = len) ∧
    ((uploadChunk outcome len last).1.success = false →
      (uploadChunk outcome len last).2.1 = 3 ∧
      (∀ i < 3, ∃ e, outcome i = .error e) ∧
      ∃ e, outcome 2 = .error e ∧ (uploadChunk outcome len last).1.error = some e) := by
  rw [uploadChunk_eq]
  cases h0 : outcome 0 <;> cases h1 : outcome 1 <;> cases h2 : outcome 2 <;>
    simp [uploadChunkGo, h0, h1, h2, MAX_RETRIES, RETRY_DELAY] <;>
    intro i hi <;> interval_cases i <;> simp [h0, h1, h2]

/-- Witness for chunk_retry_contract run on a concrete outcome stream:
a transient failure on attempt 0 and a success on attempt 1 stop the
loop after 2 attempts with one 2000 ms delay. -/
theorem chunk_retry_contract_example :
    (uploadChunk (fun n => if n = 0 then .error "t" else .ok none) 7 false).2.1 = 2 ∧
    (uploadChunk (fun n => if n = 0 then .error "t" else .ok none) 7 false).2.2 = [2000] ∧
    (uploadChunk (fun n => if n = 0 then .error "t" else .ok none) 7 false).1.success = true := by
  decide

/-- C10: reportProgress never rejects: for every delivery outcome it
resolves, and when the inner body throws (a rejected fetch) the catch
converts it into log lines only. -/
theorem report_progress_total (o : ReportOutcome) (p : ProgressEvent) :
    (∃ logs, reportProgress o p = .ok logs) ∧
    (∀ m, reportAttempt o p = .error m →
      reportProgress o p = .ok (("Progress reporting failed: " ++ m) ::
        (if p.status = .failed then
          ["CRITICAL: Could not notify Supabase of upload failure"] else []))) := by
  cases o with
  | reject m => exact ⟨⟨_, rfl⟩, fun m' hm' => by
      simp only [reportAttempt] at hm'
      cases hm'
      rfl⟩
  | response ok st =>
      refine ⟨?_, fun m' hm' => by simp only [reportAttempt] at hm'; split at hm' <;> cases hm'⟩
      by_cases h : ok = false <;> simp [reportProgress, reportAttempt, h]

/-! Chunk-range geometry (claim C4). -/

/-- The 8 MiB constant as a numeral. -/
lemma CHUNK_SIZE_eq : CHUNK_SIZE = 8388608 := by norm_num [CHUNK_SIZE]

/-- A list of ranges is chained from u when its first range starts at u,
every range has positive length, and each subsequent range starts where
the previous one ended (increasing offsets, no gaps, no overlaps). -/
def ChainedFrom : Int → List ChunkRange → Prop
  | _, [] => True
  | u, r :: rs => r.offset = u ∧ 0 < r.len ∧ ChainedFrom (u + r.len) rs

/-- The chunk loop produces nothing once the offset reaches the total. -/
lemma chunkRangesGo_empty_of_le (C total : Int) (fuel : Nat) (u : Int) (h : total ≤ u) :
    chunkRangesGo C total fuel u = [] := by
  cases fuel with
  | zero => rfl
  | succ f => simp [chunkRangesGo, show ¬u < total by omega]

/-- A nonempty range list means the loop guard held at entry. -/
lemma chunkRangesGo_ne_nil_imp (C total : Int) (fuel : Nat) (u : Int)
    (h : chunkRangesGo C total fuel u ≠ []) : u < total := by
  by_contra hc
  exact h (chunkRangesGo_empty_of_le C total fuel u (by omega))

/-- The produced ranges are chained from the entry offset. -/
lemma chunkRangesGo_chained (C total : Int) (hC : 0 < C) :
    ∀ (fuel : Nat) (u : Int), ChainedFrom u (chunkRangesGo C total fuel u) := by
  intro fuel
  induction fuel with
  | zero => intro u; simp [chunkRangesGo, ChainedFrom]
  | succ f ih =>
      intro u
      by_cases h : u < total
      · simp only [chunkRangesGo, if_pos h]
        exact ⟨rfl, show (0 : Int) < min C (total - u) by omega, ih _⟩
      · simp [chunkRangesGo, h, ChainedFrom]

/-- With enough fuel the produced range lengths sum to the remaining
byte count. -/
lemma chunkRangesGo_sum (C total : Int) (hC : 0 < C) :
    ∀ (fuel : Nat) (u : Int), u ≤ total → (total - u).toNat ≤ fuel * C.toNat →
      ((chunkRangesGo C total fuel u).map ChunkRange.len).sum = total - u := by
  intro fuel
  induction fuel with
  | zero => intro u hu hf; simp at hf; simp [chunkRangesGo]; omega
  | succ f ih =>
      intro u hu hf
      by_cases h : u < total
      · simp only [chunkRangesGo, if_pos h, List.map_cons, List.sum_cons]
        have hrec : (total - (u + min C (total - u))).toNat ≤ f * C.toNat := by
          rw [Nat.succ_mul] at hf; omega
        rw [ih _ (by omega) hrec]
        omega
      · simp [chunkRangesGo, h]; omega

/-- Chained ranges whose lengths sum to t - u cover each byte of [u, t)
exactly once. -/
lemma chained_countP_zero (b : Int) :
    ∀ (rs : List ChunkRange) (u : Int), ChainedFrom u rs → b < u →
      rs.countP (fun r => decide (r.offset ≤ b ∧ b < r.offset + r.len)) = 0 := by
  intro rs
  induction rs with
  | nil => intro u _ _; rfl
  | cons r rs ih =>
      intro u hch hb
      obtain ⟨ho, hl, hch'⟩ := hch
      rw [List.countP_cons]
      have h1 : (decide (r.offset ≤ b ∧ b < r.offset + r.len)) = false := by
        apply decide_eq_false
        rintro ⟨hh1, _⟩
        omega
      rw [ih (u + r.len) hch' (by omega), h1]
      simp

/-- Exact single coverage of every byte below the covered total. -/
lemma chained_countP_one (b : Int) :
    ∀ (rs : List ChunkRange) (u t : Int), ChainedFrom u rs →
      ((rs.map ChunkRange.len).sum = t - u) → u ≤ b → b < t →
      rs.countP (fun r => decide (r.offset ≤ b ∧ b < r.offset + r.len)) = 1 := by
  intro rs
  induction rs with
  | nil =>
      intro u t _ hsum hub hbt
      exfalso
      simp at hsum
      omega
  | cons r rs ih =>
      intro u t hch hsum hub hbt
      obtain ⟨ho, hl, hch'⟩ := hch
      simp only [List.map_cons, List.sum_cons] at hsum
      rw [List.countP_cons]
      by_cases hb : b < u + r.len
      · have h1 : (decide (r.offset ≤ b ∧ b < r.offset + r.len)) = true := by
          apply decide_eq_true
          omega
        rw [chained_countP_zero b rs (u + r.len) hch' (by omega), h1]
        simp
      · have h1 : (decide (r.offset ≤ b ∧ b < r.offset + r.len)) = false := by
          apply decide_eq_false
          rintro ⟨_, hh2⟩
          omega
        rw [ih (u + r.len) t hch' (by omega) (by omega) hbt, h1]
        simp

/-- With enough fuel the last produced range is flagged final and has
length (total - u) mod CHUNK_SIZE, or CHUNK_SIZE when that is 0. -/
lemma chunkRangesGo_last (total : Int) :
    ∀ (fuel : Nat) (u : Int), u < total →
      (total - u).toNat ≤ fuel * CHUNK_SIZE.toNat →
      ∃ r, (chunkRangesGo CHUNK_SIZE total fuel u).getLast? = some r ∧
        r.len = (if (total - u) % CHUNK_SIZE = 0 then CHUNK_SIZE else (total - u) % CHUNK_SIZE) ∧
        r.isFinal = true := by
  rw [CHUNK_SIZE_eq]
  intro fuel
  induction fuel with
  | zero => intro u hu hf; exfalso; simp at hf; omega
  | succ f ih =>
      intro u hu hf
      by_cases hA : total - u ≤ 8388608
      · have hrest : chunkRangesGo 8388608 total f (u + min 8388608 (total - u)) = [] :=
          chunkRangesGo_empty_of_le _ _ _ _ (by omega)
        simp only [chunkRangesGo, if_pos hu, hrest]
        refine ⟨_, rfl, ?_, ?_⟩
        · show min 8388608 (total - u) =
            (if (total - u) % 8388608 = 0 then 8388608 else (total - u) % 8388608)
          by_cases hm : (total - u) % 8388608 = 0
          · rw [if_pos hm]; omega
          · rw [if_neg hm]; omega
        · show decide (total ≤ u + min 8388608 (total - u)) = true
          simp only [decide_eq_true_iff]
          omega
      · have hrec : (total - (u + min 8388608 (total - u))).toNat ≤ f * (8388608 : Int).toNat := by
          rw [Nat.succ_mul] at hf
          omega
        obtain ⟨r, hlast, hlen, hfin⟩ := ih (u + min 8388608 (total - u)) (by omega) hrec
        rcases hrest : chunkRangesGo 8388608 total f (u + min 8388608 (total - u)) with _ | ⟨y, ys⟩
        · rw [hrest] at hlast; simp at hlast
        · rw [hrest] at hlast
          refine ⟨r, ?_, ?_, hfin⟩
          · simp only [chunkRangesGo, if_pos hu, hrest, List.getLast?_cons_cons]
            exact hlast
          · rw [hlen]
            have hmod : (total - (u + min 8388608 (total - u))) % 8388608 = (total - u) % 8388608 := by
              omega
            rw [hmod]

/-- With any fuel, every produced range except the last has length
CHUNK_SIZE and is not flagged final. -/
lemma chunkRangesGo_dropLast (total : Int) :
    ∀ (fuel : Nat) (u : Int), ∀ r ∈ (chunkRangesGo CHUNK_SIZE total fuel u).dropLast,
      r.len = CHUNK_SIZE ∧ r.isFinal = false := by
  rw [CHUNK_SIZE_eq]
  intro fuel
  induction fuel with
  | zero => intro u r hr; simp [chunkRangesGo] at hr
  | succ f ih =>
      intro u r hr
      by_cases h : u < total
      · simp only [chunkRangesGo, if_pos h] at hr
        rcases hrest : chunkRangesGo 8388608 total f (u + min 8388608 (total - u)) with _ | ⟨y, ys⟩
        · rw [hrest] at hr; simp at hr
        · rw [hrest] at hr
          rw [List.dropLast_cons₂] at hr
          rcases (List.mem_cons).1 hr with rfl | hr'
          · have hne : u + min 8388608 (total - u) < total := by
              apply chunkRangesGo_ne_nil_imp 8388608 total f
              rw [hrest]
              exact List.cons_ne_nil y ys
            constructor
            · show min 8388608 (total - u) = 8388608
              omega
            · show decide (total ≤ u + min 8388608 (total - u)) = false
              simp only [decide_eq_false_iff_not]
              omega
          · rw [← hrest] at hr'
            exact ih _ r hr'
      · simp [chunkRangesGo, h] at hr

/-- C4: for every totalSize > 0 with the fixed 8 MiB chunk size, the
chunk loop's byte ranges start at 0, are chained in increasing offset
order with no gaps or overlaps, their lengths sum to totalSize, every
byte of [0, totalSize) lies in exactly one range, every range but the
last has length CHUNK_SIZE and is not final, and the last range is final
with length totalSize mod CHUNK_SIZE (or CHUNK_SIZE when divisible). -/
theorem chunk_sequence_geometry (total : Int) (h : 0 < total) :
    ChainedFrom 0 (chunkRanges CHUNK_SIZE total) ∧
    ((chunkRanges CHUNK_SIZE total).map ChunkRange.len).sum = total ∧
    (∀ b : Int, 0 ≤ b → b < total →
      (chunkRanges CHUNK_SIZE total).countP
        (fun r => decide (r.offset ≤ b ∧ b < r.offset + r.len)) = 1) ∧
    (∀ r ∈ (chunkRanges CHUNK_SIZE total).dropLast, r.len = CHUNK_SIZE ∧ r.isFinal = false) ∧
    (∃ r, (chunkRanges CHUNK_SIZE total).getLast? = some r ∧
      r.len = (if total % CHUNK_SIZE = 0 then CHUNK_SIZE else total % CHUNK_SIZE) ∧
      r.isFinal = true) := by
  have hC : (0 : Int) < CHUNK_SIZE := by rw [CHUNK_SIZE_eq]; omega
  have hfuel : (total - 0).toNat ≤ chunkFuel CHUNK_SIZE total * CHUNK_SIZE.toNat := by
    rw [chunkFuel, CHUNK_SIZE_eq]
    have : ((8388608 : Int)).toNat = 8388608 := rfl
    rw [this]
    omega
  have hch := chunkRangesGo_chained CHUNK_SIZE total hC (chunkFuel CHUNK_SIZE total) 0
  have hsum := chunkRangesGo_sum CHUNK_SIZE total hC (chunkFuel CHUNK_SIZE total) 0
    (by omega) hfuel
  refine ⟨hch, by simpa using hsum, ?_, ?_, ?_⟩
  · intro b hb0 hbt
    exact chained_countP_one b _ 0 total hch (by simpa using hsum) hb0 hbt
  · exact chunkRangesGo_dropLast total (chunkFuel CHUNK_SIZE total) 0
  · have := chunkRangesGo_last total (chunkFuel CHUNK_SIZE total) 0 (by omega) hfuel
    simpa using this

/-- Witness for chunk_sequence_geometry at a concrete 20 MiB transfer. -/
theorem chunk_sequence_geometry_example :
    (0 : Int) < 20971520 ∧
    (ChainedFrom 0 (chunkRanges CHUNK_SIZE 20971520) ∧
      ((chunkRanges CHUNK_SIZE 20971520).map ChunkRange.len).sum = 20971520 ∧
      (∀ b : Int, 0 ≤ b → b < 20971520 →
        (chunkRanges CHUNK_SIZE 20971520).countP
          (fun r => decide (r.offset ≤ b ∧ b < r.offset + r.len)) = 1) ∧
      (∀ r ∈ (chunkRanges CHUNK_SIZE 20971520).dropLast,
        r.len = CHUNK_SIZE ∧ r.isFinal = false) ∧
      (∃ r, (chunkRanges CHUNK_SIZE 20971520).getLast? = some r ∧
        r.len = (if (20971520 : Int) % CHUNK_SIZE = 0 then CHUNK_SIZE
          else (20971520 : Int) % CHUNK_SIZE) ∧
        r.isFinal = true)) :=
  ⟨by decide, chunk_sequence_geometry 20971520 (by decide)⟩

/-! Lemmas about the chunk loop of streamUploadInChunks. -/
/-- The progress event the chunk loop emits after the successful chunk
at offset u (uploader.ts:170-176), with the byte advance already
rewritten to the requested chunk size. -/
def stepEvent (total u : Int) : ProgressEvent :=
  { bytesUploaded := u + min CHUNK_SIZE (total - u)
    totalBytes := total
    percentage := jsRoundRatio (100 * (u + min CHUNK_SIZE (total - u))) total
    status := if total ≤ u + min CHUNK_SIZE (total - u) then .finalizing else .uploading
    message := some (if total ≤ u + min CHUNK_SIZE (total - u) then "Finalizing streaming upload"
      else "Streamed " ++
        toString (jsRoundRatio (u + min CHUNK_SIZE (total - u)) (1024 * 1024)) ++ "MB") }

/-- The sent-chunk record for the chunk at offset u. -/
def stepSent (env : StreamEnv) (total u : Int) : SentChunk :=
  ⟨⟨u, min CHUNK_SIZE (total - u), decide (total ≤ u + min CHUNK_SIZE (total - u))⟩,
    (uploadChunk (env.send u) (min CHUNK_SIZE (total - u))
      (decide (total ≤ u + min CHUNK_SIZE (total - u)))).1⟩

lemma stepEvent_bytes (total u : Int) :
    (stepEvent total u).bytesUploaded = u + min CHUNK_SIZE (total - u) := rfl

lemma stepEvent_pct (total u : Int) :
    (stepEvent total u).percentage = jsRoundRatio (100 * (u + min CHUNK_SIZE (total - u))) total :=
  rfl

lemma stepEvent_status (total u : Int) :
    (stepEvent total u).status =
      if total ≤ u + min CHUNK_SIZE (total - u) then .finalizing else .uploading := rfl

lemma stepSent_result (env : StreamEnv) (total u : Int) :
    (stepSent env total u).result =
      (uploadChunk (env.send u) (min CHUNK_SIZE (total - u))
        (decide (total ≤ u + min CHUNK_SIZE (total - u)))).1 := rfl

lemma stepSent_range (env : StreamEnv) (total u : Int) :
    (stepSent env total u).range =
      ⟨u, min CHUNK_SIZE (total - u), decide (total ≤ u + min CHUNK_SIZE (total - u))⟩ := rfl

/-- Every event the chunk loop emits is an uploading or finalizing
event; the loop itself never emits completed or failed. -/
lemma streamGo_events_status (env : StreamEnv) (total : Int) :
    ∀ (fuel : Nat) (u : Int), ∀ ev ∈ (streamGo env total fuel u).events,
      ev.status = .uploading ∨ ev.status = .finalizing := by
  intro fuel
  induction fuel with
  | zero => intro u ev hev; simp [streamGo] at hev
  | succ fuel ih =>
      intro u ev hev
      by_cases hu : u < total
      · rcases hf : env.fetchChunk u with m | st | _
        · simp [streamGo, hu, hf] at hev
        · simp [streamGo, hu, hf] at hev
        · cases hsuc : (uploadChunk (env.send u) (min CHUNK_SIZE (total - u))
              (decide (total ≤ u + min CHUNK_SIZE (total - u)))).1.success
          · simp [streamGo, hu, hf, hsuc] at hev
          · have hb : (uploadChunk (env.send u) (min CHUNK_SIZE (total - u))
                (decide (total ≤ u + min CHUNK_SIZE (total - u)))).1.bytesUploaded =
                min CHUNK_SIZE (total - u) :=
              (uploadChunk_bytes _ _ _).1 hsuc
            cases hif : (decide (total ≤ u + min CHUNK_SIZE (total - u)) &&
                (uploadChunk (env.send u) (min CHUNK_SIZE (total - u))
                  (decide (total ≤ u + min CHUNK_SIZE (total - u)))).1.fileUri.isSome)
            · have hevents : (streamGo env total (fuel + 1) u).events =
                  stepEvent total u ::
                    (streamGo env total fuel (u + min CHUNK_SIZE (total - u))).events := by
                simp [streamGo, stepEvent, hu, hf, hsuc, hif, hb]
              rw [hevents] at hev
              rcases (List.mem_cons).1 hev with rfl | htail
              · rw [stepEvent_status]
                by_cases hl : total ≤ u + min CHUNK_SIZE (total - u) <;> simp [hl]
              · exact ih _ ev htail
            · have hevents : (streamGo env total (fuel + 1) u).events = [stepEvent total u] := by
                simp [streamGo, stepEvent, hu, hf, hsuc, hif, hb]
              rw [hevents] at hev
              rcases (List.mem_cons).1 hev with rfl | htail
              · rw [stepEvent_status]
                by_cases hl : total ≤ u + min CHUNK_SIZE (total - u) <;> simp [hl]
              · simp at htail
      · simp [streamGo, hu] at hev

/-- If the source honors every range request and every transmission
attempt succeeds but yields no file.uri, the chunk loop records only
successful chunks and ends in the "no file URI received" error
(uploader.ts:184). -/
lemma streamGo_all_ok_no_uri (env : StreamEnv) (total : Int)
    (hf : ∀ off, env.fetchChunk off = .ok)
    (hs : ∀ off a, env.send off a = .ok none) :
    ∀ (fuel : Nat) (u : Int), (streamGo env total fuel u).result = .error .noFileUri ∧
      ∀ sc ∈ (streamGo env total fuel u).sent, sc.result.success = true := by
  intro fuel
  induction fuel with
  | zero => exact fun u => ⟨rfl, by simp [streamGo]⟩
  | succ fuel ih =>
      intro u
      by_cases hu : u < total
      · have hrch : (uploadChunk (env.send u) (min CHUNK_SIZE (total - u))
            (decide (total ≤ u + min CHUNK_SIZE (total - u)))).1 =
            { success := true, bytesUploaded := min CHUNK_SIZE (total - u),
              error := none, fileUri := none } := by
          rw [uploadChunk_eq]
          simp [uploadChunkGo, hs u 0]
        have hres : (streamGo env total (fuel + 1) u).result =
            (streamGo env total fuel (u + min CHUNK_SIZE (total - u))).result := by
          simp [streamGo, hu, hf u, hrch]
        have hsent : (streamGo env total (fuel + 1) u).sent =
            stepSent env total u ::
              (streamGo env total fuel (u + min CHUNK_SIZE (total - u))).sent := by
          simp [streamGo, stepSent, hu, hf u, hrch]
        constructor
        · rw [hres]
          exact (ih _).1
        · intro sc hsc
          rw [hsent] at hsc
          rcases (List.mem_cons).1 hsc with rfl | hsc'
          · rw [stepSent_result, hrch]
          · exact (ih _).2 sc hsc'
      · exact ⟨by simp [streamGo, hu], by simp [streamGo, hu]⟩

/-- Strict ordering of chunk transmissions: the chunks actually sent are
always an initial segment of the loop's range sequence, every sent chunk
except possibly the last was confirmed successful before the next one
was sent, and when the loop ends in a chunk-upload error the last sent
chunk is the failed one. -/
lemma streamGo_sent_prefix (env : StreamEnv) (total : Int) :
    ∀ (fuel : Nat) (u : Int),
      (streamGo env total fuel u).sent.map SentChunk.range =
        (chunkRangesGo CHUNK_SIZE total fuel u).take (streamGo env total fuel u).sent.length ∧
      (∀ sc ∈ (streamGo env total fuel u).sent.dropLast, sc.result.success = true) ∧
      (∀ e, (streamGo env total fuel u).result = .error (.chunkUploadFailed e) →
        ∃ sc, (streamGo env total fuel u).sent.getLast? = some sc ∧
          sc.result.success = false) := by
  intro fuel
  induction fuel with
  | zero => intro u; exact ⟨rfl, by simp [streamGo], by simp [streamGo]⟩
  | succ fuel ih =>
      intro u
      by_cases hu : u < total
      · have hranges : chunkRangesGo CHUNK_SIZE total (fuel + 1) u =
            ⟨u, min CHUNK_SIZE (total - u), decide (total ≤ u + min CHUNK_SIZE (total - u))⟩ ::
              chunkRangesGo CHUNK_SIZE total fuel (u + min CHUNK_SIZE (total - u)) := by
          simp [chunkRangesGo, hu]
        rcases hf : env.fetchChunk u with m | st | _
        · refine ⟨?_, ?_, ?_⟩ <;> simp [streamGo, hu, hf]
        · refine ⟨?_, ?_, ?_⟩ <;> simp [streamGo, hu, hf]
        · cases hsuc : (uploadChunk (env.send u) (min CHUNK_SIZE (total - u))
              (decide (total ≤ u + min CHUNK_SIZE (total - u)))).1.success
          · have hres : (streamGo env total (fuel + 1) u).result =
                .error (.chunkUploadFailed (((uploadChunk (env.send u)
                  (min CHUNK_SIZE (total - u))
                  (decide (total ≤ u + min CHUNK_SIZE (total - u)))).1.error).getD
                    "undefined")) := by
              simp [streamGo, hu, hf, hsuc]
            have hsent : (streamGo env total (fuel + 1) u).sent = [stepSent env total u] := by
              simp [streamGo, stepSent, hu, hf, hsuc]
            refine ⟨?_, ?_, ?_⟩
            · rw [hsent, hranges]
              simp [stepSent_range]
            · rw [hsent]
              simp
            · intro e _
              rw [hsent]
              refine ⟨stepSent env total u, rfl, ?_⟩
              rw [stepSent_result]
              exact hsuc
          · have hb : (uploadChunk (env.send u) (min CHUNK_SIZE (total - u))
                (decide (total ≤ u + min CHUNK_SIZE (total - u)))).1.bytesUploaded =
                min CHUNK_SIZE (total - u) :=
              (uploadChunk_bytes _ _ _).1 hsuc
            cases hif : (decide (total ≤ u + min CHUNK_SIZE (total - u)) &&
                (uploadChunk (env.send u) (min CHUNK_SIZE (total - u))
                  (decide (total ≤ u + min CHUNK_SIZE (total - u)))).1.fileUri.isSome)
            · have hres : (streamGo env total (fuel + 1) u).result =
                  (streamGo env total fuel (u + min CHUNK_SIZE (total - u))).result := by
                simp [streamGo, hu, hf, hsuc, hif, hb]
              have hsent : (streamGo env total (fuel + 1) u).sent =
                  stepSent env total u ::
                    (streamGo env total fuel (u + min CHUNK_SIZE (total - u))).sent := by
                simp [streamGo, stepSent, hu, hf, hsuc, hif, hb]
              obtain ⟨ihp, ihd, ihf⟩ := ih (u + min CHUNK_SIZE (total - u))
              refine ⟨?_, ?_, ?_⟩
              · rw [hsent, hranges]
                simp only [List.map_cons, List.length_cons, List.take_succ_cons]
                rw [stepSent_range, ihp]
              · intro sc hsc
                rw [hsent] at hsc
                rcases hrest : (streamGo env total fuel (u + min CHUNK_SIZE (total - u))).sent
                  with _ | ⟨y, ys⟩
                · rw [hrest] at hsc
                  simp at hsc
                · rw [hrest] at hsc
                  rw [List.dropLast_cons₂] at hsc
                  rcases (List.mem_cons).1 hsc with rfl | hsc'
                  · rw [stepSent_result]
                    exact hsuc
                  · rw [← hrest] at hsc'
                    exact ihd sc hsc'
              · intro e he
                rw [hres] at he
                obtain ⟨sc, hlast, hfalse⟩ := ihf e he
                refine ⟨sc, ?_, hfalse⟩
                rw [hsent]
                rcases hrest : (streamGo env total fuel (u + min CHUNK_SIZE (total - u))).sent
                  with _ | ⟨y, ys⟩
                · rw [hrest] at hlast
                  simp at hlast
                · rw [List.getLast?_cons_cons, ← hrest]
                  exact hlast
            · have hres : (streamGo env total (fuel + 1) u).result =
                  .ok (((uploadChunk (env.send u) (min CHUNK_SIZE (total - u))
                    (decide (total ≤ u + min CHUNK_SIZE (total - u)))).1.fileUri).getD "") := by
                simp [streamGo, hu, hf, hsuc, hif, hb]
              have hsent : (streamGo env total (fuel + 1) u).sent = [stepSent env total u] := by
                simp [streamGo, stepSent, hu, hf, hsuc, hif, hb]
              refine ⟨?_, ?_, ?_⟩
              · rw [hsent, hranges]
                simp [stepSent_range]
              · rw [hsent]
                simp
              · intro e he
                rw [hres] at he
                simp at he
      · have hempty : chunkRangesGo CHUNK_SIZE total (fuel + 1) u = [] :=
          chunkRangesGo_empty_of_le _ _ _ _ (by omega)
        refine ⟨?_, ?_, ?_⟩ <;> simp [streamGo, hu, hempty]

/-- Rounding a ratio with a fixed positive denominator is monotone in
the numerator. -/
lemma jsRoundRatio_mono (t : Int) (ht : 0 < t) (x y : Int) (h : x ≤ y) :
    jsRoundRatio x t ≤ jsRoundRatio y t :=
  Int.ediv_le_ediv (by omega) (by omega)

/-- The integer rounding used in the model agrees with rational
rounding: jsRoundRatio a b = round(a / b) for b > 0. -/
lemma jsRoundRatio_eq_round (a b : Int) (hb : 0 < b) :
    jsRoundRatio a b = round ((a : ℚ) / (b : ℚ)) := by
  rw [round_eq, jsRoundRatio]
  have hbq : ((b : ℚ)) ≠ 0 := by
    exact_mod_cast (by omega : (b : ℤ) ≠ 0)
  have h1 : ((((2 * b : ℤ)).toNat : ℤ)) = 2 * b := Int.toNat_of_nonneg (by omega)
  have hcast : ((((2 * b : ℤ)).toNat : ℕ) : ℚ) = ((2 * b : ℤ) : ℚ) := by
    rw [← Int.cast_natCast, h1]
  have key : (a : ℚ) / (b : ℚ) + 1 / 2 =
      ((2 * a + b : ℤ) : ℚ) / ((((2 * b : ℤ)).toNat : ℕ) : ℚ) := by
    rw [hcast]
    push_cast
    field_simp
    ring
  rw [key, Rat.floor_intCast_div_natCast, h1]

/-- Each event the chunk loop emits carries the transfer's total, the
percentage computed from its own cumulative byte count, and a byte count
strictly above the entry offset and at most the total. -/
lemma streamGo_events_pct (env : StreamEnv) (total : Int) :
    ∀ (fuel : Nat) (u : Int), ∀ ev ∈ (streamGo env total fuel u).events,
      ev.totalBytes = total ∧
      ev.percentage = jsRoundRatio (100 * ev.bytesUploaded) total ∧
      u < ev.bytesUploaded ∧ ev.bytesUploaded ≤ total := by
  have hCS : (0 : Int) < CHUNK_SIZE := by rw [CHUNK_SIZE_eq]; omega
  intro fuel
  induction fuel with
  | zero => intro u ev hev; simp [streamGo] at hev
  | succ fuel ih =>
      intro u ev hev
      by_cases hu : u < total
      · rcases hf : env.fetchChunk u with m | st | _
        · simp [streamGo, hu, hf] at hev
        · simp [streamGo, hu, hf] at hev
        · cases hsuc : (uploadChunk (env.send u) (min CHUNK_SIZE (total - u))
              (decide (total ≤ u + min CHUNK_SIZE (total - u)))).1.success
          · simp [streamGo, hu, hf, hsuc] at hev
          · have hb : (uploadChunk (env.send u) (min CHUNK_SIZE (total - u))
                (decide (total ≤ u + min CHUNK_SIZE (total - u)))).1.bytesUploaded =
                min CHUNK_SIZE (total - u) :=
              (uploadChunk_bytes _ _ _).1 hsuc
            cases hif : (decide (total ≤ u + min CHUNK_SIZE (total - u)) &&
                (uploadChunk (env.send u) (min CHUNK_SIZE (total - u))
                  (decide (total ≤ u + min CHUNK_SIZE (total - u)))).1.fileUri.isSome)
            · have hevents : (streamGo env total (fuel + 1) u).events =
                  stepEvent total u ::
                    (streamGo env total fuel (u + min CHUNK_SIZE (total - u))).events := by
                simp [streamGo, stepEvent, hu, hf, hsuc, hif, hb]
              rw [hevents] at hev
              rcases (List.mem_cons).1 hev with rfl | htail
              · refine ⟨rfl, rfl, ?_, ?_⟩ <;> rw [stepEvent_bytes] <;> omega
              · obtain ⟨h1, h2, h3, h4⟩ := ih (u + min CHUNK_SIZE (total - u)) ev htail
                exact ⟨h1, h2, by omega, h4⟩
            · have hevents : (streamGo env total (fuel + 1) u).events = [stepEvent total u] := by
                simp [streamGo, stepEvent, hu, hf, hsuc, hif, hb]
              rw [hevents] at hev
              rcases (List.mem_cons).1 hev with rfl | htail
              · refine ⟨rfl, rfl, ?_, ?_⟩ <;> rw [stepEvent_bytes] <;> omega
              · simp at htail
      · simp [streamGo, hu] at hev

/-- The percentages of the chunk loop's events are non-decreasing. -/
lemma streamGo_pct_chain (env : StreamEnv) (total : Int) (ht : 0 < total) :
    ∀ (fuel : Nat) (u : Int),
      ((streamGo env total fuel u).events.map ProgressEvent.percentage).Chain' (· ≤ ·) := by
  intro fuel
  induction fuel with
  | zero => intro u; simp [streamGo]
  | succ fuel ih =>
      intro u
      by_cases hu : u < total
      · rcases hf : env.fetchChunk u with m | st | _
        · simp [streamGo, hu, hf]
        · simp [streamGo, hu, hf]
        · cases hsuc : (uploadChunk (env.send u) (min CHUNK_SIZE (total - u))
              (decide (total ≤ u + min CHUNK_SIZE (total - u)))).1.success
          · simp [streamGo, hu, hf, hsuc]
          · have hb : (uploadChunk (env.send u) (min CHUNK_SIZE (total - u))
                (decide (total ≤ u + min CHUNK_SIZE (total - u)))).1.bytesUploaded =
                min CHUNK_SIZE (total - u) :=
              (uploadChunk_bytes _ _ _).1 hsuc
            cases hif : (decide (total ≤ u + min CHUNK_SIZE (total - u)) &&
                (uploadChunk (env.send u) (min CHUNK_SIZE (total - u))
                  (decide (total ≤ u + min CHUNK_SIZE (total - u)))).1.fileUri.isSome)
            · have hevents : (streamGo env total (fuel + 1) u).events =
                  stepEvent total u ::
                    (streamGo env total fuel (u + min CHUNK_SIZE (total - u))).events := by
                simp [streamGo, stepEvent, hu, hf, hsuc, hif, hb]
              rw [hevents]
              rcases hre : (streamGo env total fuel (u + min CHUNK_SIZE (total - u))).events
                with _ | ⟨ev', l'⟩
              · simp
              · have hmem : ev' ∈ (streamGo env total fuel
                    (u + min CHUNK_SIZE (total - u))).events := by
                  rw [hre]
                  exact List.mem_cons_self _ _
                obtain ⟨_, hp, hlo, _⟩ := streamGo_events_pct env total fuel
                  (u + min CHUNK_SIZE (total - u)) ev' hmem
                have hchain := ih (u + min CHUNK_SIZE (total - u))
                rw [hre] at hchain
                simp only [List.map_cons, List.chain'_cons]
                refine ⟨?_, by simpa using hchain⟩
                rw [stepEvent_pct, hp]
                exact jsRoundRatio_mono total ht _ _ (by omega)
            · have hevents : (streamGo env total (fuel + 1) u).events = [stepEvent total u] := by
                simp [streamGo, stepEvent, hu, hf, hsuc, hif, hb]
              rw [hevents]
              simp
      · simp [streamGo, hu]

/-! Claim theorems about the chunk loop and the orchestrator. -/

/-- C9: within one transfer, each successful-chunk progress event's
percentage equals round(100 * bytesTransmitted / totalSize), and the
percentages are monotonically non-decreasing across successive events. -/
theorem progress_percentage_contract (env : StreamEnv) (total : Int) (ht : 0 < total) :
    (∀ ev ∈ (streamUploadInChunks env total).events,
      ev.percentage = round ((ev.bytesUploaded : ℚ) / (total : ℚ) * 100)) ∧
    ((streamUploadInChunks env total).events.map ProgressEvent.percentage).Chain' (· ≤ ·) := by
  constructor
  · intro ev hev
    obtain ⟨_, hpct, _, _⟩ := streamGo_events_pct env total _ _ ev hev
    rw [hpct, jsRoundRatio_eq_round _ _ ht]
    congr 1
    push_cast
    ring
  · exact streamGo_pct_chain env total ht _ _

/-- Concrete environment for the C9 witness. -/
def pctEnv : StreamEnv := ⟨fun _ => .ok, fun _ _ => .ok none⟩

/-- Witness for progress_percentage_contract at a 5-byte transfer. -/
theorem progress_percentage_contract_example :
    (0 : Int) < 5 ∧
    ((∀ ev ∈ (streamUploadInChunks pctEnv 5).events,
      ev.percentage = round ((ev.bytesUploaded : ℚ) / ((5 : Int) : ℚ) * 100)) ∧
    ((streamUploadInChunks pctEnv 5).events.map ProgressEvent.percentage).Chain' (· ≤ ·)) :=
  ⟨by decide, progress_percentage_contract pctEnv 5 (by decide)⟩

/-- C2: when every chunk transmission succeeds but the final chunk's
response yields no object identifier, the parse failure is not fatal at
parse time (every sent chunk's result is success), the transfer fails
afterwards with the "no file URI received" error, and the activation
poller is never reached (no status check is started). -/
theorem missing_uri_fails_late (env : OrchEnv) (st : String) (T : Int) (url : String)
    (h1 : env.headFetch = .ok (true, st, some T)) (hT : 0 < T)
    (h2 : startUploadSession env = .ok url)
    (hfetch : ∀ off, env.stream.fetchChunk off = .ok)
    (hsend : ∀ off a, env.stream.send off a = .ok none) :
    (uploadFile env).1 = .error .noFileUri ∧
    (uploadFile env).2.pollChecks = [] ∧
    (∀ sc ∈ (uploadFile env).2.sent, sc.result.success = true) := by
  have hs := streamGo_all_ok_no_uri env.stream T hfetch hsend (chunkFuel CHUNK_SIZE T) 0
  have hTne : T ≠ 0 := by omega
  have hstream : (streamUploadInChunks env.stream T).result = .error .noFileUri := hs.1
  simp only [uploadFile, h1, Bool.true_eq_false, if_false, Option.getD_some, if_neg hTne, h2]
  rw [hstream]
  exact ⟨rfl, rfl, hs.2⟩

/-- Concrete environment for the C2 witness: a 5-byte source whose
single (final) chunk uploads successfully with no uri in the response. -/
def noUriEnv : OrchEnv :=
  { headFetch := .ok (true, "OK", some 5)
  , sessionFetch := .ok (true, "OK", "", some "https://upload.example")
  , stream := ⟨fun _ => .ok, fun _ _ => .ok none⟩
  , poll := ⟨fun _ => .okState "ACTIVE" none, fun _ => 0⟩ }

/-- Witness for missing_uri_fails_late on noUriEnv. -/
theorem missing_uri_fails_late_example :
    ((uploadFile noUriEnv).1 = .error .noFileUri ∧
      (uploadFile noUriEnv).2.pollChecks = [] ∧
      (∀ sc ∈ (uploadFile noUriEnv).2.sent, sc.result.success = true)) :=
  missing_uri_fails_late noUriEnv "OK" 5 "https://upload.example" rfl (by decide) rfl
    (fun _ => rfl) (fun _ _ => rfl)

/-- Concrete environment for the C6 scenario: a 20 MiB transfer whose
second chunk (offset 8 MiB) fails every transmission attempt. -/
def chunkTwoFailEnv : OrchEnv :=
  { headFetch := .ok (true, "OK", some 20971520)
  , sessionFetch := .ok (true, "OK", "", some "https://upload.example")
  , stream := ⟨fun _ => .ok,
      fun off _ => if off = 8388608 then .error "HTTP 500: boom" else .ok (some "files/abc")⟩
  , poll := ⟨fun _ => .okState "ACTIVE" none, fun _ => 0⟩ }

/-- C6: chunk transmission is strictly ordered.  In general the sent
chunks are an initial segment of the range sequence and every sent chunk
except possibly the last was confirmed successful before the next was
sent; concretely, in a 3-chunk transfer whose chunk 2 fails all its
attempts, exactly chunks 1 and 2 are ever sent (chunk 3 never), the
transfer fails, and the worker's caller receives success = false. -/
theorem strict_chunk_order :
    (∀ (env : StreamEnv) (total : Int),
      (streamUploadInChunks env total).sent.map SentChunk.range =
        (chunkRanges CHUNK_SIZE total).take (streamUploadInChunks env total).sent.length ∧
      (∀ sc ∈ (streamUploadInChunks env total).sent.dropLast, sc.result.success = true) ∧
      (∀ e, (streamUploadInChunks env total).result = .error (.chunkUploadFailed e) →
        ∃ sc, (streamUploadInChunks env total).sent.getLast? = some sc ∧
          sc.result.success = false)) ∧
    (chunkRanges CHUNK_SIZE 20971520).length = 3 ∧
    (uploadFile chunkTwoFailEnv).1 = .error (.chunkUploadFailed "HTTP 500: boom") ∧
    (uploadFile chunkTwoFailEnv).2.sent.map (fun sc => sc.range.offset) = [0, 8388608] ∧
    (uploadFile chunkTwoFailEnv).2.sent.length = 2 ∧
    (workerFetch (uploadFile chunkTwoFailEnv).1).success = false := by
  refine ⟨fun env total => streamGo_sent_prefix env total _ 0, ?_, ?_, ?_, ?_, ?_⟩ <;> decide

/-- The catch block's event list ends with exactly one failed event. -/
lemma failWith_events (e : UploadError) (evs : List ProgressEvent) (sess : Bool)
    (sent : List SentChunk) (checks : List PollCheck)
    (hevs : ∀ ev ∈ evs, ¬ev.status = .failed) :
    (failWith e evs sess sent checks).2.events.getLast? = some (failedEvent e) ∧
    (failWith e evs sess sent checks).2.events.countP
      (fun ev => decide (ev.status = .failed)) = 1 := by
  constructor
  · exact List.getLast?_concat _
  · show (evs ++ [failedEvent e]).countP (fun ev => decide (ev.status = .failed)) = 1
    rw [List.countP_append]
    have h0 : evs.countP (fun ev => decide (ev.status = .failed)) = 0 :=
      List.countP_eq_zero.2 (fun ev hev => by simpa using hevs ev hev)
    rw [h0]
    simp [List.countP_cons, failedEvent]

/-- C7: every failed transfer performs exactly one final progress
emission, a failed-status event with bytesUploaded = 0 carrying the
failure's message, before the error propagates to the caller. -/
theorem failed_transfer_single_emission (env : OrchEnv) (e : UploadError)
    (h : (uploadFile env).1 = .error e) :
    (uploadFile env).2.events.getLast? = some (failedEvent e) ∧
    (uploadFile env).2.events.countP (fun ev => decide (ev.status = .failed)) = 1 := by
  rcases hh : env.headFetch with m | ⟨hok, st, cl⟩
  · simp only [uploadFile, hh] at h ⊢
    simp only [failWith] at h
    obtain rfl : UploadError.jsError m = e := by simpa using h
    exact failWith_events _ _ _ _ _ (by simp)
  · simp only [uploadFile, hh] at h ⊢
    by_cases hb : hok = false
    · rw [if_pos hb] at h ⊢
      obtain rfl : UploadError.metadataFailed st = e := by simpa [failWith] using h
      exact failWith_events _ _ _ _ _ (by simp)
    · rw [if_neg hb] at h ⊢
      by_cases hz : cl.getD 0 = 0
      · rw [if_pos hz] at h ⊢
        obtain rfl : UploadError.unknownSize = e := by simpa [failWith] using h
        exact failWith_events _ _ _ _ _ (by simp)
      · rw [if_neg hz] at h ⊢
        rcases hsu : startUploadSession env with e' | url
        · obtain rfl : e' = e := by simpa [hsu, failWith] using h
          apply failWith_events
          intro ev hev
          rcases (List.mem_cons).1 hev with rfl | hev'
          · simp [startingEvent]
          · simp at hev'
        · rcases hst : (streamUploadInChunks env.stream (cl.getD 0)).result with e' | uri
          · obtain rfl : e' = e := by simpa [hsu, hst, failWith] using h
            apply failWith_events
            intro ev hev
            rcases (List.mem_cons).1 hev with rfl | hev'
            · simp [startingEvent]
            · rcases streamGo_events_status env.stream (cl.getD 0) _ 0 ev hev' with h1 | h1 <;>
                simp [h1]
          · rcases hp : (waitForFileActive env.poll uri (cl.getD 0)).1 with e' | auri
            · obtain rfl : e' = e := by simpa [hsu, hst, hp, failWith] using h
              simp only [hp]
              apply failWith_events
              intro ev hev
              rcases (List.mem_cons).1 hev with rfl | hev'
              · simp [startingEvent]
              · rcases streamGo_events_status env.stream (cl.getD 0) _ 0 ev hev' with h1 | h1 <;>
                  simp [h1]
            · simp [hsu, hst, hp] at h

/-- Concrete environment for the C7 witness: the metadata probe's fetch
rejects, so the transfer fails before anything is sent. -/
def headRejectEnv : OrchEnv :=
  { headFetch := .error "boom"
  , sessionFetch := .error "unused"
  , stream := ⟨fun _ => .ok, fun _ _ => .ok none⟩
  , poll := ⟨fun _ => .okState "ACTIVE" none, fun _ => 0⟩ }

/-- Witness for failed_transfer_single_emission on headRejectEnv. -/
theorem failed_transfer_single_emission_example :
    ((uploadFile headRejectEnv).2.events.getLast? =
        some (failedEvent (.jsError "boom")) ∧
      (uploadFile headRejectEnv).2.events.countP
        (fun ev => decide (ev.status = .failed)) = 1) :=
  failed_transfer_single_emission headRejectEnv (.jsError "boom") (by decide)

/-- C3 (amended): uploadFile fails with the UnknownSize error, before
consulting the session endpoint, exactly when the parsed content-length
equals 0 (which includes an absent header); for any other parsed size -
including negative ones - it proceeds to session negotiation. -/
theorem unknown_size_guard (env : OrchEnv) (st : String) (cl : Option Int)
    (h1 : env.headFetch = .ok (true, st, cl)) :
    (cl.getD 0 = 0 →
      (uploadFile env).1 = .error .unknownSize ∧
      (uploadFile env).2.sessionConsulted = false) ∧
    (cl.getD 0 ≠ 0 → (uploadFile env).2.sessionConsulted = true) := by
  simp only [uploadFile, h1]
  constructor
  · intro hz
    rw [if_neg (by simp), if_pos hz]
    exact ⟨rfl, rfl⟩
  · intro hz
    rw [if_neg (by simp), if_neg hz]
    rcases hsu : startUploadSession env with e' | url
    · rfl
    · rcases hst : (streamUploadInChunks env.stream (cl.getD 0)).result with e' | uri
      · rfl
      · simp only []
        rcases hp : (waitForFileActive env.poll uri (cl.getD 0)).1 with e' | auri <;> rfl

/-- Counterexample to C3 as stated: a declared content-length of -1 is
not strictly greater than 0, yet uploadFile does not fail with
UnknownSize - it consults the session endpoint (whose failure here is
what ends the transfer). -/
def negativeSizeEnv : OrchEnv :=
  { headFetch := .ok (true, "OK", some (-1))
  , sessionFetch := .error "sess-down"
  , stream := ⟨fun _ => .ok, fun _ _ => .ok none⟩
  , poll := ⟨fun _ => .okState "ACTIVE" none, fun _ => 0⟩ }

/-- The counterexample run: declared size -1 (not > 0) reaches session
negotiation and does not produce UnknownSize. -/
theorem negative_size_reaches_session :
    ¬((-1 : Int) > 0) ∧
    (uploadFile negativeSizeEnv).1 = .error (.jsError "sess-down") ∧
    (uploadFile negativeSizeEnv).1 ≠ .error .unknownSize ∧
    (uploadFile negativeSizeEnv).2.sessionConsulted = true := by
  refine ⟨?_, ?_, ?_, ?_⟩ <;> decide

/-- Witness for unknown_size_guard: an absent content-length header
parses to 0 and yields UnknownSize without consulting the session. -/
def absentSizeEnv : OrchEnv :=
  { headFetch := .ok (true, "OK", none)
  , sessionFetch := .error "unused"
  , stream := ⟨fun _ => .ok, fun _ _ => .ok none⟩
  , poll := ⟨fun _ => .okState "ACTIVE" none, fun _ => 0⟩ }

/-- Witness for unknown_size_guard on absentSizeEnv. -/
theorem unknown_size_guard_example :
    (((Option.none : Option Int).getD 0 = 0 →
      (uploadFile absentSizeEnv).1 = .error .unknownSize ∧
      (uploadFile absentSizeEnv).2.sessionConsulted = false) ∧
    ((Option.none : Option Int).getD 0 ≠ 0 →
      (uploadFile absentSizeEnv).2.sessionConsulted = true)) :=
  unknown_size_guard absentSizeEnv "OK" none rfl

/-! The activation poller (claims C1 and C8). -/

/-- The loop guard used by the model (integers scaled by 2^21) holds
exactly when the source's floating comparison
Date.now() - startTime < timeoutSeconds * 1000 holds over the exact
rationals. -/
lemma guard_iff_deadline (bytes : Int) (elapsed : Nat) :
    ((elapsed : Int) * 2 ^ 21 < deadlineScaled bytes) ↔
      ((elapsed : ℚ) < timeoutSeconds bytes * 1000) := by
  have h21 : (0 : ℚ) < 2097152 := by norm_num
  have hp21 : ((2 : ℤ) ^ 21 : ℤ) = 2097152 := by norm_num
  have e1 : ((60 : ℚ) + ((bytes : ℚ) / (1024 * 1024)) * (1 / 2)) * 1000 * 2097152 =
      60000 * 2097152 + (bytes : ℚ) * 1000 := by
    field_simp
    ring
  have c1 : ((elapsed : Int) * 2097152 < 60000 * 2097152 + bytes * 1000) ↔
      ((elapsed : ℚ) < (60 + ((bytes : ℚ) / (1024 * 1024)) * (1 / 2)) * 1000) := by
    constructor
    · intro h
      have h' : ((elapsed : ℚ)) * 2097152 < 60000 * 2097152 + (bytes : ℚ) * 1000 := by
        exact_mod_cast h
      rw [← mul_lt_mul_right h21, e1]
      exact h'
    · intro h
      rw [← mul_lt_mul_right h21, e1] at h
      exact_mod_cast h
  have c2 : ((elapsed : Int) * 2097152 < 300000 * 2097152) ↔
      ((elapsed : ℚ) < 300 * 1000) := by
    constructor
    · intro h
      have h' : (elapsed : Int) < 300000 := by omega
      have h'' : ((elapsed : ℚ)) < 300000 := by exact_mod_cast h'
      linarith
    · intro h
      have h' : ((elapsed : ℚ)) < 300000 := by linarith
      have h'' : (elapsed : Int) < 300000 := by exact_mod_cast h'
      omega
  rw [deadlineScaled, timeoutSeconds, hp21,
    min_mul_of_nonneg _ _ (by norm_num : (0 : ℚ) ≤ 1000), lt_min_iff, lt_min_iff]
  exact and_congr c1 c2

/-- Every status check the polling loop starts happens strictly before
the deadline (in the scaled integer form of the guard). -/
lemma waitGo_checks_before_deadline (env : PollEnv) (bytes : Int) (uri : String) :
    ∀ (fuel attempt elapsed : Nat),
      ∀ pc ∈ (waitGo env bytes uri fuel attempt elapsed).2,
        (pc.elapsedMs : Int) * 2 ^ 21 < deadlineScaled bytes := by
  intro fuel
  induction fuel with
  | zero => intro a e pc hpc; simp [waitGo] at hpc
  | succ fuel ih =>
      intro a e pc hpc
      by_cases hg : (e : Int) * 2 ^ 21 < deadlineScaled bytes
      · rcases hpt : pollTry uri (env.statusCheck (a + 1)) with e' | u'
        · simp only [waitGo, if_pos hg, hpt] at hpc
          rcases (List.mem_cons).1 hpc with rfl | htail
          · exact hg
          · exact ih _ _ pc htail
        · rcases u' with _ | v
          · simp only [waitGo, if_pos hg, hpt] at hpc
            rcases (List.mem_cons).1 hpc with rfl | htail
            · exact hg
            · exact ih _ _ pc htail
          · simp only [waitGo, if_pos hg, hpt] at hpc
            rcases (List.mem_cons).1 hpc with rfl | htail
            · exact hg
            · simp at htail
      · simp only [waitGo, if_neg hg] at hpc
        simp at hpc

/-- The polling loop resolves with the fileUri or fails with the
activation-timeout error; no other error ever escapes it (in particular
the processingFailed throw for state FAILED is swallowed by the catch at
uploader.ts:310). -/
lemma waitGo_result_shape (env : PollEnv) (bytes : Int) (uri : String) :
    ∀ (fuel attempt elapsed : Nat),
      (∃ u, (waitGo env bytes uri fuel attempt elapsed).1 = .ok u) ∨
      (∃ a e, (waitGo env bytes uri fuel attempt elapsed).1 =
        .error (.activationTimeout bytes a e)) := by
  intro fuel
  induction fuel with
  | zero => intro a e; exact .inr ⟨a, e, rfl⟩
  | succ fuel ih =>
      intro a e
      by_cases hg : (e : Int) * 2 ^ 21 < deadlineScaled bytes
      · rcases hpt : pollTry uri (env.statusCheck (a + 1)) with e' | u'
        · have hres : (waitGo env bytes uri (fuel + 1) a e).1 =
              (waitGo env bytes uri fuel (a + 1)
                (e + (baseDelay (a + 1) + env.jitter (a + 1)))).1 := by
            simp only [waitGo, if_pos hg, hpt]
          rw [hres]
          exact ih _ _
        · rcases u' with _ | v
          · have hres : (waitGo env bytes uri (fuel + 1) a e).1 =
                (waitGo env bytes uri fuel (a + 1)
                  (e + (baseDelay (a + 1) + env.jitter (a + 1)))).1 := by
              simp only [waitGo, if_pos hg, hpt]
            rw [hres]
            exact ih _ _
          · exact .inl ⟨v, by simp only [waitGo, if_pos hg, hpt]⟩
      · exact .inr ⟨a, e, by simp only [waitGo, if_neg hg]⟩

/-- C8: the poller's deadline is min(60 + 0.5 * sizeMB, 300) seconds
with sizeMB = bytes / 2^20; it is 60 s at size 0 and capped at 300 s for
600 MiB; no status check starts at or after the deadline; and when the
loop ends without reaching ACTIVE it fails with the activation-timeout
error (never any other error). -/
theorem activation_deadline_contract (bytes : Int) (env : PollEnv) (uri : String) :
    timeoutSeconds bytes = min (60 + 0.5 * ((bytes : ℚ) / 2 ^ 20)) 300 ∧
    timeoutSeconds 0 = 60 ∧
    timeoutSeconds (600 * 2 ^ 20) = 300 ∧
    (∀ pc ∈ (waitForFileActive env uri bytes).2,
      ((pc.elapsedMs : ℚ)) < timeoutSeconds bytes * 1000) ∧
    ((∃ u, (waitForFileActive env uri bytes).1 = .ok u) ∨
      (∃ a e, (waitForFileActive env uri bytes).1 =
        .error (.activationTimeout bytes a e))) := by
  refine ⟨?_, ?_, ?_, ?_, ?_⟩
  · rw [timeoutSeconds]
    congr 1
    rw [show ((1024 : ℚ) * 1024) = 2 ^ 20 by norm_num]
    ring
  · rw [timeoutSeconds, min_def]
    norm_num
  · rw [timeoutSeconds, min_def]
    norm_num
  · intro pc hpc
    exact (guard_iff_deadline bytes pc.elapsedMs).1
      (waitGo_checks_before_deadline env bytes uri 301 0 0 pc hpc)
  · exact waitGo_result_shape env bytes uri 301 0 0

/-- The poll environment in which the remote always reports FAILED. -/
def failedStateEnv : PollEnv := ⟨fun _ => .okState "FAILED" none, fun _ => 0⟩

/-- C1 (code bug): when every status check reports state FAILED, the
processingFailed error thrown at uploader.ts:306 is caught by the
surrounding catch at line 310, so the poller keeps polling - here for
15 checks over 63.125 s of modelled time with zero jitter - and finally
fails with the activation-timeout error; the RemoteProcessingFailed
error never reaches the caller. -/
theorem failed_state_swallowed :
    (waitForFileActive failedStateEnv "files/abc" 0).1 =
      .error (.activationTimeout 0 15 63125) ∧
    (waitForFileActive failedStateEnv "files/abc" 0).2.length = 15 ∧
    (∀ e, (waitForFileActive failedStateEnv "files/abc" 0).1 ≠
      .error (.processingFailed e)) := by
  have h : (waitForFileActive failedStateEnv "files/abc" 0).1 =
      .error (.activationTimeout 0 15 63125) := by decide
  refine ⟨h, by decide, fun e he => ?_⟩
  rw [h] at he
  simp at he

end CFWorker

